import Mathlib

/-!
# Verification of the BusTub `CountMinSketch`

Shallow embedding of `src/primer/count_min_sketch.cpp` together with the class
declaration `src/include/primer/count_min_sketch.h`, and proofs about the
specified behaviour of construction, `Insert`, `Count`, `Merge`, `Clear`,
`TopK` and the move operations.

Modelling decisions, each taken directly from the source:

* `uint32_t` counters are `Nat` values kept below `2 ^ 32`; every increment and
  element-wise addition is performed modulo `2 ^ 32` (unsigned overflow wraps).
* A stored hash function (`hash_functions_[i]`) is a closure that captures its
  `seed` by value and the owning object by pointer; when applied it computes
  `CombineHashes(std::hash(item), CombineHashes(seed, SEED_BASE)) % width_`,
  reading `width_` from its owner at call time.  We therefore represent
  `hash_functions_` by the list of captured seeds and evaluate a row's hash
  against the current owner (`rowColumn`).
* `std::hash<KeyType>` and `bustub::HashUtil::CombineHashes` are deterministic
  pure functions defined outside this repository (`common/util/hash_util.h` is
  not part of the sources); they are abstracted as the two fields of a
  `HashModel`.  No claim depends on anything but their determinism.
* Fallible operations (the constructor's `std::invalid_argument` for zero
  dimensions, `Merge`'s `std::invalid_argument` for mismatched dimensions)
  return `Except CMSError`; the two distinct error messages of the source are
  the two constructors of `CMSError`.
* The C++ loops that mutate `count_matrix_` in place are rendered as folds over
  `List.range`; out-of-range accesses of the source (undefined behaviour in
  C++) become the total operations `List.getD`/`List.set`, and the theorems
  about mutation are stated for well-formed states only.  Likewise the
  hasher's `% width_` becomes Lean's total `Nat.mod`, which diverges from the
  source at `width_ = 0` (remainder by zero, undefined behaviour), so every
  theorem that evaluates a hasher requires `0 < width_`; the checked
  interpreter `countCheckedGo` makes both kinds of unsafety explicit.
-/

namespace bustub

/-- Wrap modulus `2 ^ 32`: `uint32_t` arithmetic wraps modulo this value. -/
def U32 : Nat := 4294967296

/-- Largest `uint32_t` value; `Count` uses it as the initial minimum. -/
def UINT32_MAX : Nat := 4294967295

/-- Constant `CountMinSketch::SEED_BASE` (header, line 121). -/
def SEED_BASE : Nat := 15445

/-- The deterministic hashing environment of the source: `keyHash` stands for
`std::hash<KeyType>` and `combineHashes` for `bustub::HashUtil::CombineHashes`
(declared in `common/util/hash_util.h`, outside this repository's sources).
Both are arbitrary pure functions; every theorem below is parametric in them,
which is exactly the determinism the source relies on. -/
structure HashModel (α : Type) where
  keyHash : α → Nat
  combineHashes : Nat → Nat → Nat

/-- State of a `bustub::CountMinSketch<KeyType>` object.  `hash_functions_`
holds the seeds captured by the stored `std::function` closures (see
`HashFunction`, header lines 129–135); `count_matrix_` is the
`std::vector<std::vector<uint32_t>>` of counters. -/
structure CountMinSketch (α : Type) where
  width_ : Nat
  depth_ : Nat
  hash_functions_ : List Nat
  count_matrix_ : List (List Nat)
deriving DecidableEq

/-- Errors surfaced by the API (the source throws `std::invalid_argument` with
two distinct messages; the spec names them `InvalidDimensions` and
`IncompatibleDimensions`). -/
inductive CMSError
  | invalidDimensions
  | incompatibleDimensions
deriving DecidableEq

/-- The body of the closure produced by `CountMinSketch::HashFunction(seed)`
(header lines 129–135):
`CombineHashes(std::hash(item), CombineHashes(seed, SEED_BASE)) % width_`.
Caution: Lean's `Nat.mod` is total (`n % 0 = n`) while the source's remainder
by zero is undefined behaviour, so this definition models the closure only
when `width ≠ 0`.  Every theorem below either carries `0 < width_`, or is
about a path on which the source never calls a hasher (e.g. the moved-from
state, whose `depth_ = 0` loop bounds and empty-matrix guard return before any
hasher call); `countCheckedGo` models the remainder as a checked operation
that aborts at `width_ = 0`. -/
def hashEval (H : HashModel α) (width seed : Nat) (item : α) : Nat :=
  H.combineHashes (H.keyHash item) (H.combineHashes seed SEED_BASE) % width

/-- Evaluation `hash_functions_[i](item)`: the stored closure for row `i` evaluated
against its current owner `s` (the closure reads `width_` through the captured
`this` pointer at call time). -/
def rowColumn (H : HashModel α) (s : CountMinSketch α) (i : Nat) (item : α) : Nat :=
  hashEval H s.width_ (s.hash_functions_.getD i 0) item

/-- The state built by the constructor once the dimension guard has passed:
a `depth × width` zero matrix and the seeds `0, …, depth-1`
(`hash_functions_.push_back(this->HashFunction(i))`, .cpp lines 44–48). -/
def fresh (α : Type) (width depth : Nat) : CountMinSketch α :=
  { width_ := width, depth_ := depth,
    hash_functions_ := List.range depth,
    count_matrix_ := List.replicate depth (List.replicate width 0) }

/-- Constructor `CountMinSketch::CountMinSketch(uint32_t width, uint32_t depth)`
(.cpp lines 28–49): throws `std::invalid_argument` when `width == 0 || depth
== 0`, otherwise produces `fresh`. -/
def construct (α : Type) (width depth : Nat) : Except CMSError (CountMinSketch α) :=
  if width = 0 ∨ depth = 0 then .error .invalidDimensions else .ok (fresh α width depth)

/-- One counter increment: `(count_matrix_)[i][index]++` on a row
(`uint32_t` wraps modulo `2 ^ 32`). -/
def bumpRow (row : List Nat) (idx : Nat) : List Nat :=
  row.set idx ((row.getD idx 0 + 1) % U32)

/-- `CountMinSketch::Insert(item)` (.cpp lines 113–126): for each row
`i < depth_`, compute `index = hash_functions_[i](item)` and increment
`count_matrix_[i][index]`.  (The per-increment mutex only orders concurrent
accesses; it does not change the sequential result modelled here.) -/
def insertMatrix (H : HashModel α) (s : CountMinSketch α) (item : α) : List (List Nat) :=
  (List.range s.depth_).foldl
    (fun m i => m.set i (bumpRow (m.getD i []) (rowColumn H s i item)))
    s.count_matrix_

def Insert (H : HashModel α) (s : CountMinSketch α) (item : α) : CountMinSketch α :=
  { s with count_matrix_ := insertMatrix H s item }

/-- Element-wise row addition of `Merge`'s inner loop, modulo `2 ^ 32`. -/
def addRow (row orow : List Nat) (w : Nat) : List Nat :=
  (List.range w).foldl (fun r j => r.set j ((r.getD j 0 + orow.getD j 0) % U32)) row

/-- Method `CountMinSketch::Merge(other)` (.cpp lines 128–147): throws when
`width_ != other.width_ || depth_ != other.depth_` (before touching any
counter), otherwise `count_matrix_[i][j] += other.count_matrix_[i][j]` for all
`i < depth_`, `j < width_`.  `other` is taken by `const &` and never written. -/
def mergeMatrix (s other : CountMinSketch α) : List (List Nat) :=
  (List.range s.depth_).foldl
    (fun m i => m.set i (addRow (m.getD i []) (other.count_matrix_.getD i []) s.width_))
    s.count_matrix_

def Merge (s other : CountMinSketch α) : Except CMSError (CountMinSketch α) :=
  if s.width_ ≠ other.width_ ∨ s.depth_ ≠ other.depth_ then .error .incompatibleDimensions
  else .ok { s with count_matrix_ := mergeMatrix s other }

/-- Inner loop of `Clear`: `count_matrix_[i][j] = 0` for `j < width_`. -/
def zeroRow (row : List Nat) (w : Nat) : List Nat :=
  (List.range w).foldl (fun r j => r.set j ((fun _ => 0) (r.getD j 0))) row

/-- Method `CountMinSketch::Clear()` (.cpp lines 175–187): zeroes
`count_matrix_[i][j]` for all `i < depth_`, `j < width_`; `width_`, `depth_`
and `hash_functions_` are deliberately left untouched. -/
def clearMatrix (s : CountMinSketch α) : List (List Nat) :=
  (List.range s.depth_).foldl
    (fun m i => m.set i (zeroRow (m.getD i []) s.width_))
    s.count_matrix_

def Clear (s : CountMinSketch α) : CountMinSketch α :=
  { s with count_matrix_ := clearMatrix s }

/-- The loop of `CountMinSketch::Count` (.cpp lines 156–169), over the row
indices still to visit, carrying `min_count` (initially `UINT32_MAX`):
* a row whose length differs from `width_` causes an early return of
  `row.empty() ? 0 : row[0]`;
* a computed column `≥ width_` is skipped (`continue`);
* otherwise `min_count = std::min(min_count, row[hash_index])`;
* when the loop finishes, `min_count == UINT32_MAX ? 0 : min_count`. -/
def countGo (cm : List (List Nat)) (w : Nat) (col : Nat → Nat) :
    List Nat → Nat → Nat
  | [], acc => if acc = UINT32_MAX then 0 else acc
  | i :: rest, acc =>
      let row := cm.getD i []
      if row.length ≠ w then (if row.isEmpty then 0 else row.headD 0)
      else if col i ≥ w then countGo cm w col rest acc
      else countGo cm w col rest (min acc (row.getD (col i) 0))

/-- Method `CountMinSketch::Count(item)` (.cpp lines 149–171): the defensive guard
returns 0 when the matrix is empty or the row/hasher counts differ from
`depth_`; otherwise the loop above runs over `i = 0, …, depth_ - 1`. -/
def Count (H : HashModel α) (s : CountMinSketch α) (item : α) : Nat :=
  if s.count_matrix_.isEmpty ∨ s.count_matrix_.length ≠ s.depth_ ∨
      s.hash_functions_.length ≠ s.depth_ then 0
  else countGo s.count_matrix_ s.width_ (fun i => rowColumn H s i item)
        (List.range s.depth_) UINT32_MAX

/-- Descending order on estimates: the comparator
`a.second > b.second` passed to `std::sort` in `TopK` sorts pairs so that each
later pair's count is `≤` every earlier one. -/
def estDesc (a b : α × Nat) : Prop := b.2 ≤ a.2

instance : DecidableRel (estDesc (α := α)) :=
  fun a b => inferInstanceAs (Decidable (b.2 ≤ a.2))

instance : IsTotal (α × Nat) estDesc :=
  ⟨fun a b => (Nat.le_total a.2 b.2).elim Or.inr Or.inl⟩

instance : IsTrans (α × Nat) estDesc :=
  ⟨fun _ _ _ h1 h2 => Nat.le_trans h2 h1⟩

/-- Method `CountMinSketch::TopK(k, candidates)` (.cpp lines 189–209): empty for
`k == 0`; otherwise pair every candidate with `Count(candidate)`, sort by
descending count, and keep the first `min(k, candidates.size())` entries.
(`std::sort` leaves the order of equal counts unspecified; the stable
`insertionSort` realizes one of the permitted outcomes.) -/
def TopK (H : HashModel α) (s : CountMinSketch α) (k : Nat) (candidates : List α) :
    List (α × Nat) :=
  if k = 0 then []
  else (List.insertionSort estDesc
          (candidates.map (fun c => (c, Count H s c)))).take (min k candidates.length)

/-- Resize `row.resize(width_, 0)`: truncate to `width_` entries or pad with zeros. -/
def resizeRow (row : List Nat) (w : Nat) : List Nat :=
  row.take w ++ List.replicate (w - row.length) 0

/-- Move constructor `CountMinSketch(CountMinSketch &&other)` (.cpp lines 52–79).  Returns the
pair (new object, state `other` is left in).  The new object copies `other`'s
dimensions, steals the matrix (each row then `resize`d to the new `width_`),
and regenerates its hash functions from its own `depth_`; `other` is left with
`width_ = 0`, `depth_ = 0` and a moved-from (empty) matrix — but its
`hash_functions_` vector is never cleared by the source. -/
def moveConstruct (other : CountMinSketch α) : CountMinSketch α × CountMinSketch α :=
  ({ width_ := other.width_, depth_ := other.depth_,
     hash_functions_ := List.range other.depth_,
     count_matrix_ := other.count_matrix_.map (fun row => resizeRow row other.width_) },
   { width_ := 0, depth_ := 0,
     hash_functions_ := other.hash_functions_,
     count_matrix_ := [] })

/-- Move assignment `operator=(CountMinSketch &&other)` (.cpp lines 82–111) for distinct
objects: every field of the target is overwritten (the matrix moved then
row-resized, `hash_functions_` cleared and regenerated from the new `depth_`),
and `other`'s dimensions are zeroed; as in the move constructor, `other`'s
`hash_functions_` survive.  The result is the pair (new target state, state
`other` is left in); it does not depend on the old target. -/
def moveAssign (_target other : CountMinSketch α) :
    CountMinSketch α × CountMinSketch α :=
  ({ width_ := other.width_, depth_ := other.depth_,
     hash_functions_ := List.range other.depth_,
     count_matrix_ := other.count_matrix_.map (fun row => resizeRow row other.width_) },
   { width_ := 0, depth_ := 0,
     hash_functions_ := other.hash_functions_,
     count_matrix_ := [] })

/-- States reachable through the public API: positive dimensions, a
`depth × width` matrix of `uint32_t` counters, and the constructor's seeds. -/
def WellFormed (s : CountMinSketch α) : Prop :=
  0 < s.width_ ∧ 0 < s.depth_ ∧
  s.count_matrix_.length = s.depth_ ∧
  (∀ row ∈ s.count_matrix_, row.length = s.width_) ∧
  s.hash_functions_ = List.range s.depth_ ∧
  (∀ row ∈ s.count_matrix_, ∀ c ∈ row, c < U32)

instance (s : CountMinSketch α) [DecidableEq α] : Decidable (WellFormed s) := by
  unfold WellFormed; infer_instance

/-- The structural invariant exactly as the spec states it: `depth` rows of
`width` counters, `depth` hashers, and every hasher output in `[0, width)`. -/
def SpecInvariant (H : HashModel α) (s : CountMinSketch α) : Prop :=
  s.count_matrix_.length = s.depth_ ∧
  (∀ row ∈ s.count_matrix_, row.length = s.width_) ∧
  s.hash_functions_.length = s.depth_ ∧
  (∀ i, i < s.depth_ → ∀ x, rowColumn H s i x < s.width_)

/-- A concrete hashing environment used to evaluate the development on
explicit inputs (`KeyType = Nat`, identity key hash, additive combiner). -/
def natModel : HashModel Nat :=
  { keyHash := fun n => n, combineHashes := fun a b => a + b }

/-- The matrix contents after inserting the stream `l` into a freshly
constructed `width × depth` sketch: counter `(i, j)` holds the number of
stream elements whose row-`i` hash is `j`, modulo `2 ^ 32` (the `uint32_t`
wrap of the repeated `++`). -/
def streamMatrix (H : HashModel α) (width depth : Nat) (l : List α) : List (List Nat) :=
  (List.range depth).map fun i =>
    (List.range width).map fun j =>
      (l.countP fun y => hashEval H width i y == j) % U32

/-- The whole sketch state reached from `fresh` by inserting the stream `l`. -/
def streamState (H : HashModel α) (width depth : Nat) (l : List α) : CountMinSketch α :=
  { width_ := width, depth_ := depth,
    hash_functions_ := List.range depth,
    count_matrix_ := streamMatrix H width depth l }

/-- Checked re-execution of the `Count` loop: every operation of the source
that can go wrong becomes an `Option`-valued one that aborts with `none`.
That is every subscript (`count_matrix_[i]`, `row[0]`, `hash_functions_[i]`,
`row[hash_index]`) when out of range, and also the remainder `% width_` inside
the hasher call when `width_ = 0` — a remainder by zero is undefined behaviour
in the source, whereas the embedding's total `Nat.mod` would silently return
the dividend (see `hashEval`); the check is placed exactly where the closure
body evaluates the remainder, i.e. after `hash_functions_[i]` has been read
and only on the path where the row length matched.  `countChecked = some ∘
Count` on a state is the formal statement that `Count` performs no unsafe
operation on that state. -/
def countCheckedGo (H : HashModel α) (s : CountMinSketch α) (item : α) :
    List Nat → Nat → Option Nat
  | [], acc => some (if acc = UINT32_MAX then 0 else acc)
  | i :: rest, acc =>
      (s.count_matrix_[i]?).bind fun row =>
        if row.length ≠ s.width_ then (if row.isEmpty then some 0 else row[0]?)
        else
          (s.hash_functions_[i]?).bind fun seed =>
            if s.width_ = 0 then none
            else
              if hashEval H s.width_ seed item ≥ s.width_ then
                countCheckedGo H s item rest acc
              else
                (row[hashEval H s.width_ seed item]?).bind fun v =>
                  countCheckedGo H s item rest (min acc v)

/-- Checked `Count` (see `countCheckedGo`). -/
def countChecked (H : HashModel α) (s : CountMinSketch α) (item : α) : Option Nat :=
  if s.count_matrix_.isEmpty ∨ s.count_matrix_.length ≠ s.depth_ ∨
      s.hash_functions_.length ≠ s.depth_ then some 0
  else countCheckedGo H s item (List.range s.depth_) UINT32_MAX

/-- Declarative restatement of the actual degradation policy of `Count`: 0 on the
global guard; otherwise, if some row's length differs from `width_`, the first
counter of the *first* such row (0 if it is empty); otherwise the sentinel
minimum over the rows whose computed column is in range. -/
def countAmended (H : HashModel α) (s : CountMinSketch α) (item : α) : Nat :=
  if s.count_matrix_.isEmpty ∨ s.count_matrix_.length ≠ s.depth_ ∨
      s.hash_functions_.length ≠ s.depth_ then 0
  else
    match (List.range s.depth_).find?
        (fun i => (s.count_matrix_.getD i []).length != s.width_) with
    | some i => (s.count_matrix_.getD i []).headD 0
    | none =>
        let vals := (List.range s.depth_).filterMap fun i =>
          if rowColumn H s i item < s.width_
          then some ((s.count_matrix_.getD i []).getD (rowColumn H s i item) 0) else none
        if vals.foldl min UINT32_MAX = UINT32_MAX then 0 else vals.foldl min UINT32_MAX

/-- Modelled from the spec: the degradation policy the spec claims for `Count`
on an inconsistent structure — "skip the malformed row, or return 0 if no row
is usable".  A row is usable when it exists, its hasher exists, its length
matches `width`, and the computed column is within bounds; the result is the
minimum over the usable rows' counters, and 0 when no row is usable. -/
def countClaimed (H : HashModel α) (s : CountMinSketch α) (item : α) : Nat :=
  let vals := (List.range s.depth_).filterMap fun i =>
    match s.count_matrix_[i]?, s.hash_functions_[i]? with
    | some row, some seed =>
        if row.length = s.width_ ∧ hashEval H s.width_ seed item < s.width_
        then some (row.getD (hashEval H s.width_ seed item) 0) else none
    | _, _ => none
  match vals with
  | [] => 0
  | v :: vs => vs.foldl min v

/-! ## Basic list lemmas -/

theorem getD_of_lt (l : List β) (i : Nat) (d : β) (h : i < l.length) : l.getD i d = l[i] := by
  simp [List.getD_eq_getElem?_getD, List.getElem?_eq_getElem h]

theorem foldl_set_length (f : Nat → β → β) (d0 : β) (idxs : List Nat) (m : List β) :
    (idxs.foldl (fun acc i => acc.set i (f i (acc.getD i d0))) m).length = m.length := by
  induction idxs generalizing m with
  | nil => rfl
  | cons i rest ih =>
      rw [List.foldl_cons, ih (m.set i (f i (m.getD i d0))), List.length_set]

/-- Effect of the in-place loop pattern `for i in [0, k): a[i] = f(i, a[i])`
on the entry at `j`. -/
theorem foldl_set_range_getD (f : Nat → β → β) (d0 : β) (k : Nat) :
    ∀ (m : List β) (j : Nat), j < m.length →
      ((List.range k).foldl (fun acc i => acc.set i (f i (acc.getD i d0))) m).getD j d0
        = if j < k then f j (m.getD j d0) else m.getD j d0 := by
  induction k with
  | zero => intro m j hj; simp
  | succ k ih =>
      intro m j hj
      rw [List.range_succ, List.foldl_append, List.foldl_cons, List.foldl_nil]
      have hlen : ((List.range k).foldl (fun acc i => acc.set i (f i (acc.getD i d0))) m).length
          = m.length := foldl_set_length f d0 _ m
      rw [List.getD_eq_getElem?_getD, List.getElem?_set]
      by_cases hkj : k = j
      · subst hkj
        rw [if_pos rfl, if_pos (hlen ▸ hj)]
        rw [Option.getD_some, ih m k hj]
        simp
      · rw [if_neg hkj, ← List.getD_eq_getElem?_getD, ih m j hj]
        rcases Nat.lt_trichotomy j k with h | h | h
        · simp [h, Nat.lt_succ_of_lt h]
        · exact absurd h.symm hkj
        · have h1 : ¬ j < k := Nat.not_lt.mpr (Nat.le_of_lt h)
          have h2 : ¬ j < k + 1 := Nat.not_lt.mpr h
          simp [h1, h2]

theorem foldl_min_le_acc (v : Nat → Nat) (idxs : List Nat) (acc : Nat) :
    idxs.foldl (fun a i => min a (v i)) acc ≤ acc := by
  induction idxs generalizing acc with
  | nil => exact Nat.le_refl acc
  | cons i rest ih =>
      exact Nat.le_trans (ih (min acc (v i))) (Nat.min_le_left acc (v i))

theorem foldl_min_le (v : Nat → Nat) (idxs : List Nat) (acc : Nat) (i0 : Nat)
    (h : i0 ∈ idxs) : idxs.foldl (fun a i => min a (v i)) acc ≤ v i0 := by
  induction idxs generalizing acc with
  | nil => cases h
  | cons i rest ih =>
      rw [List.foldl_cons]
      rcases List.mem_cons.mp h with rfl | hmem
      · exact Nat.le_trans (foldl_min_le_acc v rest _) (Nat.min_le_right acc (v i0))
      · exact ih _ hmem

theorem le_foldl_min (v : Nat → Nat) (idxs : List Nat) (acc c : Nat)
    (hacc : c ≤ acc) (h : ∀ i ∈ idxs, c ≤ v i) :
    c ≤ idxs.foldl (fun a i => min a (v i)) acc := by
  induction idxs generalizing acc with
  | nil => exact hacc
  | cons i rest ih =>
      rw [List.foldl_cons]
      exact ih _ (Nat.le_min.mpr ⟨hacc, h i (List.mem_cons_self i rest)⟩)
        (fun j hj => h j (List.mem_cons_of_mem i hj))

/-! ## Characterizations of the row and matrix updates -/

theorem length_bumpRow (row : List Nat) (idx : Nat) :
    (bumpRow row idx).length = row.length := by
  simp [bumpRow]

theorem getD_bumpRow (row : List Nat) (idx j : Nat) (hj : j < row.length) :
    (bumpRow row idx).getD j 0
      = if idx = j then (row.getD idx 0 + 1) % U32 else row.getD j 0 := by
  rw [bumpRow, List.getD_eq_getElem?_getD, List.getElem?_set]
  by_cases h : idx = j
  · subst h
    rw [if_pos rfl, if_pos (by omega), Option.getD_some, if_pos rfl]
  · rw [if_neg h, if_neg h, ← List.getD_eq_getElem?_getD]

theorem length_addRow (row orow : List Nat) (w : Nat) :
    (addRow row orow w).length = row.length :=
  foldl_set_length (fun j v => (v + orow.getD j 0) % U32) 0 (List.range w) row

theorem getD_addRow (row orow : List Nat) (w j : Nat) (hj : j < row.length) :
    (addRow row orow w).getD j 0
      = if j < w then (row.getD j 0 + orow.getD j 0) % U32 else row.getD j 0 :=
  foldl_set_range_getD (fun j v => (v + orow.getD j 0) % U32) 0 w row j hj

theorem length_zeroRow (row : List Nat) (w : Nat) :
    (zeroRow row w).length = row.length :=
  foldl_set_length (fun _ _ => 0) 0 (List.range w) row

theorem getD_zeroRow (row : List Nat) (w j : Nat) (hj : j < row.length) :
    (zeroRow row w).getD j 0 = if j < w then 0 else row.getD j 0 :=
  foldl_set_range_getD (fun _ _ => 0) 0 w row j hj

theorem length_insertMatrix (H : HashModel α) (s : CountMinSketch α) (x : α) :
    (insertMatrix H s x).length = s.count_matrix_.length :=
  foldl_set_length (fun i row => bumpRow row (rowColumn H s i x)) [] _ _

theorem getD_insertMatrix (H : HashModel α) (s : CountMinSketch α) (x : α) (i : Nat)
    (hi : i < s.count_matrix_.length) :
    (insertMatrix H s x).getD i []
      = if i < s.depth_ then bumpRow (s.count_matrix_.getD i []) (rowColumn H s i x)
        else s.count_matrix_.getD i [] :=
  foldl_set_range_getD (fun i row => bumpRow row (rowColumn H s i x)) [] s.depth_ _ i hi

theorem length_mergeMatrix (s t : CountMinSketch α) :
    (mergeMatrix s t).length = s.count_matrix_.length :=
  foldl_set_length (fun i row => addRow row (t.count_matrix_.getD i []) s.width_) [] _ _

theorem getD_mergeMatrix (s t : CountMinSketch α) (i : Nat)
    (hi : i < s.count_matrix_.length) :
    (mergeMatrix s t).getD i []
      = if i < s.depth_
        then addRow (s.count_matrix_.getD i []) (t.count_matrix_.getD i []) s.width_
        else s.count_matrix_.getD i [] :=
  foldl_set_range_getD (fun i row => addRow row (t.count_matrix_.getD i []) s.width_)
    [] s.depth_ _ i hi

theorem length_clearMatrix (s : CountMinSketch α) :
    (clearMatrix s).length = s.count_matrix_.length :=
  foldl_set_length (fun _ row => zeroRow row s.width_) [] _ _

theorem getD_clearMatrix (s : CountMinSketch α) (i : Nat)
    (hi : i < s.count_matrix_.length) :
    (clearMatrix s).getD i []
      = if i < s.depth_ then zeroRow (s.count_matrix_.getD i []) s.width_
        else s.count_matrix_.getD i [] :=
  foldl_set_range_getD (fun _ row => zeroRow row s.width_) [] s.depth_ _ i hi

/-! ## The state reached from `fresh` by a stream of inserts -/

theorem length_streamMatrix (H : HashModel α) (w d : Nat) (l : List α) :
    (streamMatrix H w d l).length = d := by
  simp [streamMatrix]

theorem getD_range_of_lt (d i : Nat) (hi : i < d) : (List.range d).getD i 0 = i := by
  rw [getD_of_lt _ _ _ (by simpa using hi), List.getElem_range]

theorem getD_streamMatrix (H : HashModel α) (w d : Nat) (l : List α) (i : Nat) (hi : i < d) :
    (streamMatrix H w d l).getD i []
      = (List.range w).map (fun j => (l.countP fun y => hashEval H w i y == j) % U32) := by
  rw [getD_of_lt _ _ _ (by simpa [length_streamMatrix] using hi)]
  simp only [streamMatrix, List.getElem_map, List.getElem_range]

theorem row_length_streamMatrix (H : HashModel α) (w d : Nat) (l : List α) (i : Nat)
    (hi : i < d) : ((streamMatrix H w d l).getD i []).length = w := by
  rw [getD_streamMatrix H w d l i hi]; simp

theorem entry_streamMatrix (H : HashModel α) (w d : Nat) (l : List α) (i j : Nat)
    (hi : i < d) (hj : j < w) :
    ((streamMatrix H w d l).getD i []).getD j 0
      = (l.countP fun y => hashEval H w i y == j) % U32 := by
  rw [getD_streamMatrix H w d l i hi,
    getD_of_lt _ _ _ (by simpa using hj)]
  simp only [List.getElem_map, List.getElem_range]

theorem fresh_eq_streamState (H : HashModel α) (w d : Nat) :
    fresh α w d = streamState H w d [] := by
  simp only [fresh, streamState, CountMinSketch.mk.injEq, true_and]
  apply List.ext_getElem
  · simp [streamMatrix]
  · intro i h1 h2
    apply List.ext_getElem
    · simp [streamMatrix]
    · intro j g1 g2
      simp [streamMatrix]

theorem rowColumn_streamState (H : HashModel α) (w d : Nat) (l : List α) (i : Nat)
    (hi : i < d) (y : α) :
    rowColumn H (streamState H w d l) i y = hashEval H w i y := by
  simp only [rowColumn, streamState]
  rw [getD_range_of_lt d i hi]

theorem insertMatrix_streamState (H : HashModel α) (w d : Nat) (l : List α) (y : α) :
    insertMatrix H (streamState H w d l) y = streamMatrix H w d (l ++ [y]) := by
  apply List.ext_getElem
  · rw [length_insertMatrix]
    exact (length_streamMatrix H w d l).trans (length_streamMatrix H w d (l ++ [y])).symm
  · intro i h1 h2
    have hi : i < d := by
      simpa [length_streamMatrix] using h2
    have hmlen : i < (streamState H w d l).count_matrix_.length := by
      simpa [streamState, length_streamMatrix] using hi
    rw [← getD_of_lt _ _ [] h1, ← getD_of_lt _ _ [] h2,
      getD_insertMatrix H (streamState H w d l) y i hmlen]
    have hdep : i < (streamState H w d l).depth_ := by simpa [streamState] using hi
    rw [if_pos hdep]
    have hrowL : ((streamState H w d l).count_matrix_.getD i []).length = w := by
      simpa [streamState] using row_length_streamMatrix H w d l i hi
    apply List.ext_getElem
    · rw [length_bumpRow, hrowL, row_length_streamMatrix H w d (l ++ [y]) i hi]
    · intro j g1 g2
      have hj : j < w := by
        rw [length_bumpRow, hrowL] at g1; exact g1
      rw [← getD_of_lt _ _ 0 g1, ← getD_of_lt _ _ 0 g2,
        getD_bumpRow _ _ _ (by rw [hrowL]; exact hj),
        rowColumn_streamState H w d l i hi y]
      have hsrow : (streamState H w d l).count_matrix_.getD i []
          = (streamMatrix H w d l).getD i [] := rfl
      rw [hsrow, entry_streamMatrix H w d (l ++ [y]) i j hi hj]
      by_cases hcol : hashEval H w i y = j
      · rw [if_pos hcol, ← hcol, entry_streamMatrix H w d l i _ hi (hcol ▸ hj)]
        rw [Nat.mod_add_mod]
        have : (l ++ [y]).countP (fun z => hashEval H w i z == hashEval H w i y)
            = l.countP (fun z => hashEval H w i z == hashEval H w i y) + 1 := by
          simp [List.countP_append, List.countP_cons]
        rw [this]
      · rw [if_neg hcol, entry_streamMatrix H w d l i j hi hj]
        have : (l ++ [y]).countP (fun z => hashEval H w i z == j)
            = l.countP (fun z => hashEval H w i z == j) := by
          simp [List.countP_append, List.countP_cons, hcol]
        rw [this]

theorem Insert_streamState (H : HashModel α) (w d : Nat) (l : List α) (y : α) :
    Insert H (streamState H w d l) y = streamState H w d (l ++ [y]) := by
  show ({ streamState H w d l with
            count_matrix_ := insertMatrix H (streamState H w d l) y } : CountMinSketch α)
      = streamState H w d (l ++ [y])
  rw [insertMatrix_streamState H w d l y]
  rfl

theorem foldl_Insert_streamState (H : HashModel α) (w d : Nat) (l : List α) :
    ∀ acc : List α,
      List.foldl (Insert H) (streamState H w d acc) l = streamState H w d (acc ++ l) := by
  induction l with
  | nil => intro acc; simp
  | cons y rest ih =>
      intro acc
      rw [List.foldl_cons, Insert_streamState H w d acc y, ih (acc ++ [y])]
      simp

theorem foldl_Insert_fresh (H : HashModel α) (w d : Nat) (l : List α) :
    List.foldl (Insert H) (fresh α w d) l = streamState H w d l := by
  rw [fresh_eq_streamState H w d]
  simpa using foldl_Insert_streamState H w d l []

/-! ## Evaluating `Count` -/

theorem countGo_all_good (cm : List (List Nat)) (w : Nat) (col : Nat → Nat) :
    ∀ (idxs : List Nat) (acc : Nat),
      (∀ i ∈ idxs, (cm.getD i []).length = w ∧ col i < w) →
      countGo cm w col idxs acc
        = (if idxs.foldl (fun a i => min a ((cm.getD i []).getD (col i) 0)) acc
              = UINT32_MAX
           then 0
           else idxs.foldl (fun a i => min a ((cm.getD i []).getD (col i) 0)) acc) := by
  intro idxs
  induction idxs with
  | nil => intro acc _; rfl
  | cons i rest ih =>
      intro acc h
      obtain ⟨hrow, hcol⟩ := h i (List.mem_cons_self i rest)
      rw [List.foldl_cons]
      show (if (cm.getD i []).length ≠ w
            then (if (cm.getD i []).isEmpty then 0 else (cm.getD i []).headD 0)
            else if col i ≥ w then countGo cm w col rest acc
            else countGo cm w col rest (min acc ((cm.getD i []).getD (col i) 0))) = _
      rw [if_neg (by simpa [List.getD_eq_getElem?_getD] using hrow), if_neg (by omega)]
      exact ih _ (fun j hj => h j (List.mem_cons_of_mem i hj))

theorem rowColumn_lt_width (H : HashModel α) (s : CountMinSketch α) (i : Nat) (x : α)
    (hw : 0 < s.width_) : rowColumn H s i x < s.width_ :=
  Nat.mod_lt _ hw

/-- On a structurally sound state, `Count` is the sentinel minimum over all
rows (every row contributes because its length matches and the column is in
range). -/
theorem Count_eq_min (H : HashModel α) (s : CountMinSketch α)
    (hw : 0 < s.width_) (hd : 0 < s.depth_)
    (hlen : s.count_matrix_.length = s.depth_)
    (hrow : ∀ i, i < s.depth_ → (s.count_matrix_.getD i []).length = s.width_)
    (hhash : s.hash_functions_.length = s.depth_) (x : α) :
    Count H s x
      = (if (List.range s.depth_).foldl
            (fun a i => min a ((s.count_matrix_.getD i []).getD (rowColumn H s i x) 0))
            UINT32_MAX = UINT32_MAX
         then 0
         else (List.range s.depth_).foldl
            (fun a i => min a ((s.count_matrix_.getD i []).getD (rowColumn H s i x) 0))
            UINT32_MAX) := by
  have hne : ¬ (s.count_matrix_.isEmpty = true ∨ s.count_matrix_.length ≠ s.depth_ ∨
      s.hash_functions_.length ≠ s.depth_) := by
    push_neg
    refine ⟨?_, hlen, hhash⟩
    intro hemp
    rw [List.isEmpty_iff] at hemp
    rw [hemp] at hlen
    simp at hlen
    omega
  rw [Count, if_neg hne]
  exact countGo_all_good s.count_matrix_ s.width_ _ (List.range s.depth_) UINT32_MAX
    (fun i hi => ⟨hrow i (List.mem_range.mp hi), rowColumn_lt_width H s i x hw⟩)

/-- Evaluation of `Count` on a sound state every counter of which is zero. -/
theorem Count_zero_entries (H : HashModel α) (s : CountMinSketch α) (x : α)
    (hw : 0 < s.width_) (hd : 0 < s.depth_)
    (hlen : s.count_matrix_.length = s.depth_)
    (hrow : ∀ i, i < s.depth_ → (s.count_matrix_.getD i []).length = s.width_)
    (hhash : s.hash_functions_.length = s.depth_)
    (hz : ∀ i, i < s.depth_ → ∀ j, j < s.width_ →
      (s.count_matrix_.getD i []).getD j 0 = 0) :
    Count H s x = 0 := by
  rw [Count_eq_min H s hw hd hlen hrow hhash x]
  have h2 : (List.range s.depth_).foldl
      (fun a i => min a ((s.count_matrix_.getD i []).getD (rowColumn H s i x) 0))
      UINT32_MAX ≤ (s.count_matrix_.getD 0 []).getD (rowColumn H s 0 x) 0 :=
    foldl_min_le (fun i => (s.count_matrix_.getD i []).getD (rowColumn H s i x) 0)
      (List.range s.depth_) UINT32_MAX 0 (List.mem_range.mpr hd)
  rw [hz 0 hd _ (rowColumn_lt_width H s 0 x hw)] at h2
  have h3 : (List.range s.depth_).foldl
      (fun a i => min a ((s.count_matrix_.getD i []).getD (rowColumn H s i x) 0))
      UINT32_MAX = 0 := Nat.le_zero.mp h2
  rw [h3]
  norm_num [UINT32_MAX]

/-- The per-row entry of a stream state at the column of `x`: the number of
stream elements colliding with `x` in that row (no wrap once the stream is
shorter than `UINT32_MAX`). -/
theorem streamState_entry_at (H : HashModel α) (w d : Nat) (hw : 0 < w)
    (l : List α) (x : α) (hl : l.length < UINT32_MAX) (i : Nat) (hi : i < d) :
    ((streamState H w d l).count_matrix_.getD i []).getD
        (rowColumn H (streamState H w d l) i x) 0
      = l.countP (fun y => hashEval H w i y == hashEval H w i x) := by
  show ((streamMatrix H w d l).getD i []).getD
      (rowColumn H (streamState H w d l) i x) 0 = _
  rw [rowColumn_streamState H w d l i hi x,
    entry_streamMatrix H w d l i (hashEval H w i x) hi (Nat.mod_lt _ hw)]
  exact Nat.mod_eq_of_lt (Nat.lt_trans
    (Nat.lt_of_le_of_lt (List.countP_le_length _) hl) (by norm_num [UINT32_MAX, U32]))

/-- The no-under-estimation bound for a fresh sketch fed the stream `l`, as
long as the stream is short enough that no counter reaches `UINT32_MAX`. -/
theorem Count_streamState_ge (H : HashModel α) [BEq α] [LawfulBEq α]
    (w d : Nat) (hw : 0 < w) (hd : 0 < d)
    (l : List α) (x : α) (hl : l.length < UINT32_MAX) :
    l.count x ≤ Count H (streamState H w d l) x := by
  have hlen : (streamState H w d l).count_matrix_.length = (streamState H w d l).depth_ :=
    length_streamMatrix H w d l
  have hrow : ∀ i, i < (streamState H w d l).depth_ →
      ((streamState H w d l).count_matrix_.getD i []).length
        = (streamState H w d l).width_ :=
    fun i hi => row_length_streamMatrix H w d l i hi
  have hhash : (streamState H w d l).hash_functions_.length
      = (streamState H w d l).depth_ := List.length_range d
  rw [Count_eq_min H _ hw hd hlen hrow hhash x]
  have hcnt : ∀ i, i < d →
      l.count x ≤ l.countP (fun y => hashEval H w i y == hashEval H w i x) := by
    intro i _
    rw [List.count_eq_countP]
    refine List.countP_mono_left ?_
    intro y _ hy
    have hyx : y = x := by simpa using hy
    simp [hyx]
  have hge : l.count x ≤ (List.range (streamState H w d l).depth_).foldl
      (fun a i => min a (((streamState H w d l).count_matrix_.getD i []).getD
        (rowColumn H (streamState H w d l) i x) 0)) UINT32_MAX := by
    refine le_foldl_min
      (fun i => ((streamState H w d l).count_matrix_.getD i []).getD
        (rowColumn H (streamState H w d l) i x) 0)
      (List.range (streamState H w d l).depth_) UINT32_MAX (l.count x)
      ?_ ?_
    · have := List.count_le_length (a := x) (l := l)
      omega
    · intro i hi
      have hid : i < d := List.mem_range.mp hi
      show l.count x ≤ ((streamState H w d l).count_matrix_.getD i []).getD
        (rowColumn H (streamState H w d l) i x) 0
      rw [streamState_entry_at H w d hw l x hl i hid]
      exact hcnt i hid
  have hlt : (List.range (streamState H w d l).depth_).foldl
      (fun a i => min a (((streamState H w d l).count_matrix_.getD i []).getD
        (rowColumn H (streamState H w d l) i x) 0)) UINT32_MAX < UINT32_MAX := by
    have hle0 : (List.range (streamState H w d l).depth_).foldl
        (fun a i => min a (((streamState H w d l).count_matrix_.getD i []).getD
          (rowColumn H (streamState H w d l) i x) 0)) UINT32_MAX
        ≤ ((streamState H w d l).count_matrix_.getD 0 []).getD
          (rowColumn H (streamState H w d l) 0 x) 0 :=
      foldl_min_le
        (fun i => ((streamState H w d l).count_matrix_.getD i []).getD
          (rowColumn H (streamState H w d l) i x) 0)
        (List.range (streamState H w d l).depth_) UINT32_MAX 0
        (List.mem_range.mpr hd)
    rw [streamState_entry_at H w d hw l x hl 0 hd] at hle0
    have hgood : l.countP (fun y => hashEval H w 0 y == hashEval H w 0 x)
        < UINT32_MAX := Nat.lt_of_le_of_lt (List.countP_le_length _) hl
    omega
  rw [if_neg (by omega)]
  exact hge

theorem countP_replicate (p : β → Bool) (n : Nat) (a : β) :
    (List.replicate n a).countP p = if p a then n else 0 := by
  induction n with
  | zero => simp
  | succ n ih =>
      rw [List.replicate_succ, List.countP_cons, ih]
      by_cases h : p a <;> simp [h]

theorem WellFormed.row_length {s : CountMinSketch α} (hs : WellFormed s) (i : Nat)
    (hi : i < s.depth_) : (s.count_matrix_.getD i []).length = s.width_ := by
  have hi' : i < s.count_matrix_.length := by rw [hs.2.2.1]; exact hi
  rw [getD_of_lt _ _ _ hi']
  exact hs.2.2.2.1 _ (List.getElem_mem hi')

theorem Count_fresh_eq_zero (H : HashModel α) (w d : Nat) (hw : 0 < w) (hd : 0 < d)
    (x : α) : Count H (fresh α w d) x = 0 := by
  rw [fresh_eq_streamState H w d]
  refine Count_zero_entries H _ x hw hd (length_streamMatrix H w d [])
    (fun i hi => row_length_streamMatrix H w d [] i hi) (List.length_range d) ?_
  intro i hi j hj
  show ((streamMatrix H w d []).getD i []).getD j 0 = 0
  rw [entry_streamMatrix H w d [] i j hi hj]
  simp

/-! ## Claim C1 -/

/-- C1, counterexample.  The claim "`Count(x)` is at least the number of times
`x` was inserted, for every finite sequence of inserts" fails on the code:
`uint32_t` counters wrap, and `Count` maps a minimum of `UINT32_MAX` to 0.
Concretely, after `2 ^ 32 - 1` insertions of the key `0` into a sketch of
width 1 and depth 1 (constructed with positive dimensions), the single counter
holds `UINT32_MAX`, so `Count` returns 0 even though the key was inserted
`2 ^ 32 - 1 > 0` times. -/
theorem C1_counterexample :
    ¬ ((List.replicate (U32 - 1) (0 : Nat)).count 0
        ≤ Count natModel (List.foldl (Insert natModel) (fresh Nat 1 1)
            (List.replicate (U32 - 1) (0 : Nat))) 0) := by
  rw [foldl_Insert_fresh]
  have hcnt : (List.replicate (U32 - 1) (0 : Nat)).count 0 = U32 - 1 := by simp
  have hv0 : ((streamState natModel 1 1 (List.replicate (U32 - 1) (0 : Nat))).count_matrix_.getD
        0 []).getD (rowColumn natModel
          (streamState natModel 1 1 (List.replicate (U32 - 1) (0 : Nat))) 0 0) 0
      = UINT32_MAX := by
    show ((streamMatrix natModel 1 1 (List.replicate (U32 - 1) (0 : Nat))).getD 0 []).getD
        (rowColumn natModel
          (streamState natModel 1 1 (List.replicate (U32 - 1) (0 : Nat))) 0 0) 0 = _
    rw [rowColumn_streamState natModel 1 1 _ 0 Nat.one_pos 0,
      entry_streamMatrix natModel 1 1 _ 0 (hashEval natModel 1 0 0) Nat.one_pos
        (Nat.mod_lt _ Nat.one_pos),
      countP_replicate]
    rw [if_pos (by simp)]
    decide
  have hC : Count natModel
      (streamState natModel 1 1 (List.replicate (U32 - 1) (0 : Nat))) 0 = 0 := by
    rw [Count_eq_min natModel _ Nat.one_pos Nat.one_pos
      (length_streamMatrix natModel 1 1 _)
      (fun i hi => row_length_streamMatrix natModel 1 1 _ i hi)
      (List.length_range 1) 0]
    have hrange : List.range
        (streamState natModel 1 1 (List.replicate (U32 - 1) (0 : Nat))).depth_ = [0] := rfl
    rw [hrange, List.foldl_cons, List.foldl_nil, hv0]
    decide
  rw [hC, hcnt]
  decide

/-- **C1** (amended).  For every sketch successfully constructed with any
width and depth, and every insert stream of fewer than `2 ^ 32 - 1` items,
`Count x` is at least the number of times `x` occurs in the stream: below the
wrap-around threshold every counter equals the exact number of colliding
inserts, so the minimum over the rows bounds the true count from below and the
`UINT32_MAX` sentinel never fires. -/
theorem C1_no_underestimation (H : HashModel α) [BEq α] [LawfulBEq α]
    (w d : Nat) (s : CountMinSketch α) (hc : construct α w d = .ok s)
    (l : List α) (x : α) (hl : l.length < UINT32_MAX) :
    l.count x ≤ Count H (List.foldl (Insert H) s l) x := by
  unfold construct at hc
  by_cases hzero : w = 0 ∨ d = 0
  · rw [if_pos hzero] at hc; cases hc
  · rw [if_neg hzero] at hc
    injection hc with hc
    push_neg at hzero
    subst hc
    rw [foldl_Insert_fresh]
    exact Count_streamState_ge H w d (Nat.pos_of_ne_zero hzero.1)
      (Nat.pos_of_ne_zero hzero.2) l x hl

/-- C1 witness: the amended theorem applied at width 2, depth 2, the stream
`[0, 0, 5]` and the key 0. -/
theorem C1_no_underestimation_witness :
    construct Nat 2 2 = .ok (fresh Nat 2 2) ∧
    ([0, 0, 5] : List Nat).length < UINT32_MAX ∧
    ([0, 0, 5] : List Nat).count 0
      ≤ Count natModel (List.foldl (Insert natModel) (fresh Nat 2 2) [0, 0, 5]) 0 :=
  ⟨rfl, by decide,
    C1_no_underestimation natModel 2 2 (fresh Nat 2 2) rfl [0, 0, 5] 0 (by decide)⟩

/-! ## Claim C7 -/

/-- **C7**: construction fails with `InvalidDimensions` exactly when `width`
or `depth` is zero; with positive dimensions it produces the `depth × width`
zero matrix with exactly `depth` row hashers seeded `0, …, depth - 1` (each
combined with `SEED_BASE` at evaluation time), and `Count` of anything on the
fresh sketch is 0. -/
theorem C7_construction_guard (α : Type) (w d : Nat) :
    (construct α w d = .error .invalidDimensions ↔ w = 0 ∨ d = 0) ∧
    (0 < w → 0 < d →
      construct α w d = .ok (fresh α w d) ∧
      (fresh α w d).count_matrix_ = List.replicate d (List.replicate w 0) ∧
      (fresh α w d).hash_functions_ = List.range d ∧
      ∀ (H : HashModel α) (x : α), Count H (fresh α w d) x = 0) := by
  constructor
  · unfold construct
    by_cases h : w = 0 ∨ d = 0
    · simp [h]
    · simp [h]
  · intro hw hd
    refine ⟨?_, rfl, rfl, fun H x => Count_fresh_eq_zero H w d hw hd x⟩
    unfold construct
    rw [if_neg (by omega)]

/-- C7 witness: the guard at `(0,5)`, `(5,0)`, `(0,0)` and the success case at
`(10,3)` with key 42. -/
theorem C7_construction_guard_witness :
    construct Nat 0 5 = .error .invalidDimensions ∧
    construct Nat 5 0 = .error .invalidDimensions ∧
    construct Nat 0 0 = .error .invalidDimensions ∧
    construct Nat 10 3 = .ok (fresh Nat 10 3) ∧
    Count natModel (fresh Nat 10 3) 42 = 0 :=
  ⟨(C7_construction_guard Nat 0 5).1.mpr (Or.inl rfl),
   (C7_construction_guard Nat 5 0).1.mpr (Or.inr rfl),
   (C7_construction_guard Nat 0 0).1.mpr (Or.inl rfl),
   ((C7_construction_guard Nat 10 3).2 (by decide) (by decide)).1,
   ((C7_construction_guard Nat 10 3).2 (by decide) (by decide)).2.2.2 natModel 42⟩

/-! ## Claim C5 -/

/-- **C5**: `Clear` zeroes every counter while preserving `width_`, `depth_`
and the row hashers (so the sketch keeps its merge compatibility), and `Count`
is 0 for every key immediately after `Clear` as well as immediately after
construction. -/
theorem C5_clear (H : HashModel α) (s : CountMinSketch α) (hs : WellFormed s) (x : α) :
    (Clear s).width_ = s.width_ ∧ (Clear s).depth_ = s.depth_ ∧
    (Clear s).hash_functions_ = s.hash_functions_ ∧
    (Clear s).count_matrix_.length = s.count_matrix_.length ∧
    (∀ i, i < s.depth_ → ∀ j, j < s.width_ →
      ((Clear s).count_matrix_.getD i []).getD j 0 = 0) ∧
    Count H (Clear s) x = 0 ∧
    (∀ w d, 0 < w → 0 < d → Count H (fresh α w d) x = 0) := by
  have hmlen : (Clear s).count_matrix_.length = s.count_matrix_.length :=
    length_clearMatrix s
  have hentry : ∀ i, i < s.depth_ → ∀ j, j < s.width_ →
      ((Clear s).count_matrix_.getD i []).getD j 0 = 0 := by
    intro i hi j hj
    have hi' : i < s.count_matrix_.length := by rw [hs.2.2.1]; exact hi
    show ((clearMatrix s).getD i []).getD j 0 = 0
    rw [getD_clearMatrix s i hi', if_pos hi,
      getD_zeroRow _ _ _ (by rw [hs.row_length i hi]; exact hj), if_pos hj]
  have hrowlen : ∀ i, i < s.depth_ → ((Clear s).count_matrix_.getD i []).length = s.width_ := by
    intro i hi
    have hi' : i < s.count_matrix_.length := by rw [hs.2.2.1]; exact hi
    show ((clearMatrix s).getD i []).length = s.width_
    rw [getD_clearMatrix s i hi', if_pos hi, length_zeroRow]
    exact hs.row_length i hi
  refine ⟨rfl, rfl, rfl, hmlen, hentry, ?_, fun w d hw hd => Count_fresh_eq_zero H w d hw hd x⟩
  refine Count_zero_entries H (Clear s) x hs.1 hs.2.1 ?_ hrowlen ?_ hentry
  · rw [hmlen]; exact hs.2.2.1
  · show s.hash_functions_.length = s.depth_
    rw [hs.2.2.2.2.1]; exact List.length_range s.depth_

/-- C5 witness: `Clear` after one insert into a 3×2 sketch. -/
theorem C5_clear_witness :
    WellFormed (Insert natModel (fresh Nat 3 2) 7) ∧
    Count natModel (Clear (Insert natModel (fresh Nat 3 2) 7)) 7 = 0 :=
  ⟨by decide, (C5_clear natModel (Insert natModel (fresh Nat 3 2) 7) (by decide) 7).2.2.2.2.2.1⟩

/-! ## Preservation of the structural invariant -/

theorem foldl_set_all (P : β → Prop) (f : Nat → β → β) (d0 : β)
    (hf : ∀ i v, P (f i v)) :
    ∀ (idxs : List Nat) (m : List β), (∀ c ∈ m, P c) →
      ∀ c ∈ idxs.foldl (fun acc i => acc.set i (f i (acc.getD i d0))) m, P c := by
  intro idxs
  induction idxs with
  | nil => intro m hm c hc; exact hm c hc
  | cons i rest ih =>
      intro m hm c hc
      rw [List.foldl_cons] at hc
      refine ih _ ?_ c hc
      intro c' hc'
      rcases List.mem_or_eq_of_mem_set hc' with h | h
      · exact hm c' h
      · rw [h]; exact hf i _

/-- Every row of an in-place matrix loop (`for i in [0, depth): a[i] = F(i,
a[i])`) on a well-sized matrix is `F` of the corresponding original row. -/
theorem mem_matrix_foldl (F : Nat → List Nat → List Nat) (s : CountMinSketch α)
    (hlen : s.count_matrix_.length = s.depth_) :
    ∀ row ∈ (List.range s.depth_).foldl
        (fun m i => m.set i (F i (m.getD i []))) s.count_matrix_,
      ∃ k, k < s.depth_ ∧ row = F k (s.count_matrix_.getD k []) := by
  intro row hrow
  obtain ⟨k, hk, hval⟩ := List.mem_iff_getElem.mp hrow
  have hfl : ((List.range s.depth_).foldl
      (fun m i => m.set i (F i (m.getD i []))) s.count_matrix_).length
      = s.count_matrix_.length := foldl_set_length F [] _ _
  have hk' : k < s.count_matrix_.length := by rw [← hfl]; exact (by omega)
  have hkd : k < s.depth_ := by rw [← hlen]; exact hk'
  refine ⟨k, hkd, ?_⟩
  rw [← hval, ← getD_of_lt _ _ [] hk]
  rw [foldl_set_range_getD F [] s.depth_ s.count_matrix_ k hk', if_pos hkd]

theorem length_resizeRow (row : List Nat) (w : Nat) : (resizeRow row w).length = w := by
  simp [resizeRow]
  omega

theorem resizeRow_of_length (row : List Nat) (w : Nat) (h : row.length = w) :
    resizeRow row w = row := by
  simp [resizeRow, h, List.take_of_length_le (Nat.le_of_eq h)]

theorem moveConstruct_fst_of_wf {s : CountMinSketch α} (hs : WellFormed s) :
    (moveConstruct s).1 = s := by
  have hmap : s.count_matrix_.map (fun row => resizeRow row s.width_) = s.count_matrix_ := by
    have h1 : ∀ row ∈ s.count_matrix_, resizeRow row s.width_ = row :=
      fun row hrow => resizeRow_of_length row s.width_ (hs.2.2.2.1 row hrow)
    rw [List.map_congr_left h1]
    exact List.map_id s.count_matrix_
  show ({ width_ := s.width_, depth_ := s.depth_,
          hash_functions_ := List.range s.depth_,
          count_matrix_ := s.count_matrix_.map (fun row => resizeRow row s.width_) }
        : CountMinSketch α) = s
  rw [hmap, ← hs.2.2.2.2.1]

/-- The construction invariant, for `fresh`. -/
theorem WellFormed_fresh (w d : Nat) (hw : 0 < w) (hd : 0 < d) :
    WellFormed (fresh α w d) := by
  refine ⟨hw, hd, by simp [fresh], ?_, rfl, ?_⟩
  · intro row hrow
    rw [List.eq_of_mem_replicate hrow]
    simp [fresh]
  · intro row hrow c hc
    rw [List.eq_of_mem_replicate hrow] at hc
    rw [List.eq_of_mem_replicate hc]
    norm_num [U32]

theorem WellFormed_insert (H : HashModel α) (s : CountMinSketch α) (x : α)
    (hs : WellFormed s) : WellFormed (Insert H s x) := by
  obtain ⟨hw, hd, hlen, hrows, hhash, hval⟩ := hs
  have hmem : ∀ row ∈ insertMatrix H s x,
      ∃ k, k < s.depth_ ∧ row = bumpRow (s.count_matrix_.getD k []) (rowColumn H s k x) :=
    mem_matrix_foldl (fun i row => bumpRow row (rowColumn H s i x)) s hlen
  refine ⟨hw, hd, ?_, ?_, hhash, ?_⟩
  · show (insertMatrix H s x).length = s.depth_
    rw [length_insertMatrix]; exact hlen
  · intro row hrow
    obtain ⟨k, hk, hval'⟩ := hmem row hrow
    rw [hval', length_bumpRow]
    exact WellFormed.row_length ⟨hw, hd, hlen, hrows, hhash, hval⟩ k hk
  · intro row hrow c hc
    obtain ⟨k, hk, hval'⟩ := hmem row hrow
    rw [hval'] at hc
    rcases List.mem_or_eq_of_mem_set hc with h | h
    · have hk' : k < s.count_matrix_.length := by omega
      refine hval _ ?_ c h
      rw [getD_of_lt _ _ [] hk']
      exact List.getElem_mem hk'
    · rw [h]
      exact Nat.mod_lt _ (by norm_num [U32])

theorem WellFormed_mergeState (s t : CountMinSketch α)
    (hs : WellFormed s) :
    WellFormed ({ s with count_matrix_ := mergeMatrix s t } : CountMinSketch α) := by
  obtain ⟨hw, hd, hlen, hrows, hhash, hval⟩ := hs
  have hmem : ∀ row ∈ mergeMatrix s t,
      ∃ k, k < s.depth_ ∧
        row = addRow (s.count_matrix_.getD k []) (t.count_matrix_.getD k []) s.width_ :=
    mem_matrix_foldl (fun i row => addRow row (t.count_matrix_.getD i []) s.width_) s hlen
  refine ⟨hw, hd, ?_, ?_, hhash, ?_⟩
  · show (mergeMatrix s t).length = s.depth_
    rw [length_mergeMatrix]; exact hlen
  · intro row hrow
    obtain ⟨k, hk, hval'⟩ := hmem row hrow
    rw [hval', length_addRow]
    exact WellFormed.row_length ⟨hw, hd, hlen, hrows, hhash, hval⟩ k hk
  · intro row hrow c hc
    obtain ⟨k, hk, hval'⟩ := hmem row hrow
    rw [hval'] at hc
    have hk' : k < s.count_matrix_.length := by omega
    have hbase : ∀ c ∈ s.count_matrix_.getD k [], c < U32 := by
      intro c' hc'
      refine hval _ ?_ c' hc'
      rw [getD_of_lt _ _ [] hk']
      exact List.getElem_mem hk'
    exact foldl_set_all (fun c => c < U32)
      (fun j v => (v + (t.count_matrix_.getD k []).getD j 0) % U32) 0
      (fun i v => Nat.mod_lt _ (by norm_num [U32])) (List.range s.width_)
      (s.count_matrix_.getD k []) hbase c hc

theorem WellFormed_clear (s : CountMinSketch α) (hs : WellFormed s) :
    WellFormed (Clear s) := by
  obtain ⟨hw, hd, hlen, hrows, hhash, hval⟩ := hs
  have hmem : ∀ row ∈ clearMatrix s,
      ∃ k, k < s.depth_ ∧ row = zeroRow (s.count_matrix_.getD k []) s.width_ :=
    mem_matrix_foldl (fun _ row => zeroRow row s.width_) s hlen
  refine ⟨hw, hd, ?_, ?_, hhash, ?_⟩
  · show (clearMatrix s).length = s.depth_
    rw [length_clearMatrix]; exact hlen
  · intro row hrow
    obtain ⟨k, hk, hval'⟩ := hmem row hrow
    rw [hval', length_zeroRow]
    exact WellFormed.row_length ⟨hw, hd, hlen, hrows, hhash, hval⟩ k hk
  · intro row hrow c hc
    obtain ⟨k, hk, hval'⟩ := hmem row hrow
    rw [hval'] at hc
    have hk' : k < s.count_matrix_.length := by omega
    have hbase : ∀ c ∈ s.count_matrix_.getD k [], c < U32 := by
      intro c' hc'
      refine hval _ ?_ c' hc'
      rw [getD_of_lt _ _ [] hk']
      exact List.getElem_mem hk'
    exact foldl_set_all (fun c => c < U32) (fun _ _ => (0 : Nat)) 0
      (fun _ _ => by norm_num [U32]) (List.range s.width_)
      (s.count_matrix_.getD k []) hbase c hc

/-! ## Claim C2 -/

/-- **C2**: `Merge` fails with `IncompatibleDimensions` exactly when the
widths or depths differ; the check precedes any mutation and `other` is read
through a `const` reference, so on failure both operands are untouched (the
embedding returns the error without producing a new state).  On success the
result keeps `this`'s width, depth and row hashers, and every counter is the
`uint32_t` sum of the two operands' corresponding counters; `other` is never
written. -/
theorem C2_merge (s t : CountMinSketch α) (hs : WellFormed s) (ht : WellFormed t) :
    (Merge s t = .error .incompatibleDimensions ↔
      s.width_ ≠ t.width_ ∨ s.depth_ ≠ t.depth_) ∧
    (s.width_ = t.width_ → s.depth_ = t.depth_ →
      ∃ u, Merge s t = .ok u ∧
        u.width_ = s.width_ ∧ u.depth_ = s.depth_ ∧
        u.hash_functions_ = s.hash_functions_ ∧
        u.count_matrix_.length = s.count_matrix_.length ∧
        ∀ i, i < s.depth_ →
          ((u.count_matrix_.getD i []).length = s.width_ ∧
           ∀ j, j < s.width_ →
            (u.count_matrix_.getD i []).getD j 0
              = ((s.count_matrix_.getD i []).getD j 0
                  + (t.count_matrix_.getD i []).getD j 0) % U32)) := by
  constructor
  · unfold Merge
    by_cases h : s.width_ ≠ t.width_ ∨ s.depth_ ≠ t.depth_
    · simp [h]
    · simp [h]
  · intro hw hd
    refine ⟨{ s with count_matrix_ := mergeMatrix s t }, ?_, rfl, rfl, rfl,
      length_mergeMatrix s t, ?_⟩
    · unfold Merge
      rw [if_neg (by simp [hw, hd])]
    · intro i hi
      have hi' : i < s.count_matrix_.length := by rw [hs.2.2.1]; exact hi
      constructor
      · show ((mergeMatrix s t).getD i []).length = s.width_
        rw [getD_mergeMatrix s t i hi', if_pos hi, length_addRow]
        exact hs.row_length i hi
      · intro j hj
        show ((mergeMatrix s t).getD i []).getD j 0 = _
        rw [getD_mergeMatrix s t i hi', if_pos hi,
          getD_addRow _ _ _ _ (by rw [hs.row_length i hi]; exact hj), if_pos hj]

/-- C2 witness: a dimension mismatch fails, a matching merge succeeds and sums
the counters. -/
theorem C2_merge_witness :
    Merge (fresh Nat 2 2) (fresh Nat 3 2) = .error .incompatibleDimensions ∧
    (∃ u, Merge (Insert natModel (fresh Nat 2 2) 9) (fresh Nat 2 2) = .ok u ∧
      u.width_ = 2) := by
  constructor
  · exact (C2_merge (fresh Nat 2 2) (fresh Nat 3 2) (by decide) (by decide)).1.mpr
      (Or.inl (by decide))
  · obtain ⟨u, h1, h2, -⟩ :=
      (C2_merge (Insert natModel (fresh Nat 2 2) 9) (fresh Nat 2 2)
        (by decide) (by decide)).2 rfl rfl
    exact ⟨u, h1, h2⟩

/-! ## Claim C8 -/

/-- C8, counterexample.  The claim includes the move among the operations that
preserve "there are exactly `depth` row hashers", but the moved-from source of
a move keeps its old `hash_functions_` (the source never clears them) while
its `depth_` is reset to 0: after moving out of a freshly built 2×2 sketch,
the source has 2 hashers and depth 0, so the spec's invariant fails on it. -/
theorem C8_counterexample :
    ¬ SpecInvariant natModel (moveConstruct (fresh Nat 2 2)).2 := by
  intro h
  exact absurd h.2.2.1 (by decide)

/-- **C8** (amended): the structural invariant (matrix of exactly `depth` rows
of exactly `width` counters, exactly `depth` hashers, every hasher output in
`[0, width)`) holds after construction and is preserved by `Insert`,
successful `Merge`, `Clear`, and by the *target* of a move; the moved-from
source satisfies the matrix clauses (its empty matrix matches its zeroed
depth) but keeps its old hashers, so the hasher-count clause fails for it (see
the counterexample).  `Count` and `TopK` do not mutate the state. -/
theorem C8_invariants (H : HashModel α) :
    (∀ w d (s : CountMinSketch α), construct α w d = .ok s → WellFormed s) ∧
    (∀ (s : CountMinSketch α) x, WellFormed s → WellFormed (Insert H s x)) ∧
    (∀ s t u : CountMinSketch α, WellFormed s → Merge s t = .ok u → WellFormed u) ∧
    (∀ s : CountMinSketch α, WellFormed s → WellFormed (Clear s)) ∧
    (∀ s : CountMinSketch α, WellFormed s → WellFormed (moveConstruct s).1) ∧
    (∀ s : CountMinSketch α, WellFormed s → SpecInvariant H s) ∧
    (∀ s : CountMinSketch α, WellFormed s →
      (moveConstruct s).2.count_matrix_.length = (moveConstruct s).2.depth_ ∧
      (moveConstruct s).2.hash_functions_.length = s.depth_) := by
  refine ⟨?_, ?_, ?_, ?_, ?_, ?_, ?_⟩
  · intro w d s hc
    unfold construct at hc
    by_cases hzero : w = 0 ∨ d = 0
    · rw [if_pos hzero] at hc; cases hc
    · rw [if_neg hzero] at hc
      injection hc with hc
      push_neg at hzero
      rw [← hc]
      exact WellFormed_fresh w d (Nat.pos_of_ne_zero hzero.1) (Nat.pos_of_ne_zero hzero.2)
  · intro s x hs
    exact WellFormed_insert H s x hs
  · intro s t u hs hm
    unfold Merge at hm
    by_cases h : s.width_ ≠ t.width_ ∨ s.depth_ ≠ t.depth_
    · rw [if_pos h] at hm; cases hm
    · rw [if_neg h] at hm
      injection hm with hm
      rw [← hm]
      exact WellFormed_mergeState s t hs
  · intro s hs
    exact WellFormed_clear s hs
  · intro s hs
    rw [moveConstruct_fst_of_wf hs]
    exact hs
  · intro s hs
    refine ⟨hs.2.2.1, ?_, ?_, ?_⟩
    · exact hs.2.2.2.1
    · rw [hs.2.2.2.2.1]; exact List.length_range s.depth_
    · intro i hi x
      exact rowColumn_lt_width H s i x hs.1
  · intro s hs
    refine ⟨rfl, ?_⟩
    show s.hash_functions_.length = s.depth_
    rw [hs.2.2.2.2.1]; exact List.length_range s.depth_

/-- C8 witness: the invariant after an insert into a fresh 2×2 sketch. -/
theorem C8_invariants_witness : WellFormed (Insert natModel (fresh Nat 2 2) 5) :=
  (C8_invariants natModel).2.1 (fresh Nat 2 2) 5 (by decide)

/-! ## Claim C4 -/

/-- C4, counterexample.  The claim says the moved-from sketch is left with "no
hashers", but neither the move constructor nor the move assignment clears
`other.hash_functions_`: after moving out of a fresh 2×2 sketch the source
still holds its two hashers (the seeds 0 and 1). -/
theorem C4_counterexample :
    (moveConstruct (fresh Nat 2 2)).2.hash_functions_ = [0, 1] ∧
    ¬ (moveConstruct (fresh Nat 2 2)).2.hash_functions_ = [] := by
  constructor <;> decide

/-- **C4** (amended).  After a move from a well-formed sketch `s`: the target
keeps `s`'s dimensions, its rows normalized to the target's width (a no-op on
well-formed rows), and hashers regenerated from its own depth and the seed
scheme — making the target behave exactly like `s` (`Count` unchanged).  The
source is left with `width_ = 0`, `depth_ = 0` and an empty matrix, but its
`hash_functions_` are *not* cleared; nevertheless every further operation on
the source is harmless: `Insert` is a no-op, `Count` returns 0, and `Merge`
with any well-formed sketch fails with `IncompatibleDimensions`.  Move
assignment produces the same pair of states as move construction. -/
theorem C4_move (H : HashModel α) (s : CountMinSketch α) (hs : WellFormed s) :
    (moveConstruct s).1.width_ = s.width_ ∧
    (moveConstruct s).1.depth_ = s.depth_ ∧
    (moveConstruct s).1.hash_functions_ = List.range (moveConstruct s).1.depth_ ∧
    (moveConstruct s).1.count_matrix_
      = s.count_matrix_.map (fun row => resizeRow row s.width_) ∧
    (moveConstruct s).1 = s ∧
    (∀ x, Count H (moveConstruct s).1 x = Count H s x) ∧
    (moveConstruct s).2.width_ = 0 ∧
    (moveConstruct s).2.depth_ = 0 ∧
    (moveConstruct s).2.count_matrix_ = [] ∧
    (moveConstruct s).2.hash_functions_ = s.hash_functions_ ∧
    (∀ x, Insert H (moveConstruct s).2 x = (moveConstruct s).2) ∧
    (∀ x, Count H (moveConstruct s).2 x = 0) ∧
    (∀ t : CountMinSketch α, WellFormed t →
      Merge (moveConstruct s).2 t = .error .incompatibleDimensions) ∧
    (∀ t, moveAssign t s = moveConstruct s) := by
  have hfst := moveConstruct_fst_of_wf hs
  refine ⟨rfl, rfl, rfl, rfl, hfst, ?_, rfl, rfl, rfl, rfl, ?_, ?_, ?_, fun t => rfl⟩
  · intro x
    rw [hfst]
  · intro x
    rfl
  · intro x
    rfl
  · intro t ht
    unfold Merge
    rw [if_pos]
    exact Or.inl (show (0 : Nat) ≠ t.width_ from Nat.ne_of_lt ht.1)

/-! ## Claim C3 -/

theorem getElem?_zero_eq_headD (l : List Nat) (h : l ≠ []) :
    l[0]? = some (l.headD 0) := by
  cases l with
  | nil => exact absurd rfl h
  | cons a tl => simp

/-- The `Count` loop in "first bad row / surviving minimum" form. -/
theorem countGo_find_form (cm : List (List Nat)) (w : Nat) (col : Nat → Nat) :
    ∀ (idxs : List Nat) (acc : Nat),
      countGo cm w col idxs acc
        = (match idxs.find? (fun i => (cm.getD i []).length != w) with
           | some i => (cm.getD i []).headD 0
           | none =>
              (if (idxs.filterMap (fun i =>
                    if col i < w then some ((cm.getD i []).getD (col i) 0) else none)).foldl
                    min acc = UINT32_MAX
               then 0
               else (idxs.filterMap (fun i =>
                    if col i < w then some ((cm.getD i []).getD (col i) 0) else none)).foldl
                    min acc)) := by
  intro idxs
  induction idxs with
  | nil => intro acc; rfl
  | cons i rest ih =>
      intro acc
      show (if (cm.getD i []).length ≠ w
            then (if (cm.getD i []).isEmpty then 0 else (cm.getD i []).headD 0)
            else if col i ≥ w then countGo cm w col rest acc
            else countGo cm w col rest (min acc ((cm.getD i []).getD (col i) 0))) = _
      by_cases hlen : (cm.getD i []).length = w
      · have hlen2 : (cm[i]?.getD []).length = w := by
          simpa [List.getD_eq_getElem?_getD] using hlen
        rw [if_neg (by simp [hlen2])]
        have hfind : ((i :: rest).find? (fun i => (cm.getD i []).length != w))
            = rest.find? (fun i => (cm.getD i []).length != w) :=
          List.find?_cons_of_neg _ (by simp [hlen2])
        rw [hfind]
        by_cases hcol : col i < w
        · rw [if_neg (by omega)]
          have hfm : ((i :: rest).filterMap (fun i =>
                if col i < w then some ((cm.getD i []).getD (col i) 0) else none))
              = ((cm.getD i []).getD (col i) 0) :: (rest.filterMap (fun i =>
                if col i < w then some ((cm.getD i []).getD (col i) 0) else none)) := by
            rw [List.filterMap_cons]
            simp [hcol]
          rw [hfm, List.foldl_cons]
          exact ih (min acc ((cm.getD i []).getD (col i) 0))
        · rw [if_pos (by omega)]
          have hfm : ((i :: rest).filterMap (fun i =>
                if col i < w then some ((cm.getD i []).getD (col i) 0) else none))
              = rest.filterMap (fun i =>
                if col i < w then some ((cm.getD i []).getD (col i) 0) else none) := by
            rw [List.filterMap_cons]
            simp [hcol]
          rw [hfm]
          exact ih acc
      · have hlen2 : ¬ (cm[i]?.getD []).length = w := by
          simpa [List.getD_eq_getElem?_getD] using hlen
        rw [if_pos hlen]
        have hfind : ((i :: rest).find? (fun i => (cm.getD i []).length != w))
            = some i := List.find?_cons_of_pos _ (by simp [hlen2])
        rw [hfind]
        show (if (cm.getD i []).isEmpty then 0 else (cm.getD i []).headD 0)
            = (cm.getD i []).headD 0
        by_cases hemp : (cm.getD i []).isEmpty
        · rw [if_pos hemp]
          rw [List.isEmpty_iff] at hemp
          rw [hemp]
          rfl
        · rw [if_neg hemp]

/-- Equality of `Count` with its declarative restatement on every state, malformed ones
included. -/
theorem Count_eq_countAmended (H : HashModel α) (s : CountMinSketch α) (x : α) :
    Count H s x = countAmended H s x := by
  unfold Count countAmended
  by_cases hg : s.count_matrix_.isEmpty = true ∨ s.count_matrix_.length ≠ s.depth_ ∨
      s.hash_functions_.length ≠ s.depth_
  · rw [if_pos hg, if_pos hg]
  · rw [if_neg hg, if_neg hg]
    exact countGo_find_form s.count_matrix_ s.width_ (fun i => rowColumn H s i x)
      (List.range s.depth_) UINT32_MAX

/-- The checked loop never aborts and agrees with the actual loop, whenever
the width is positive (so the hasher's remainder is defined) and every visited
index is within both vectors (which the global guard establishes). -/
theorem countCheckedGo_eq (H : HashModel α) (s : CountMinSketch α) (x : α)
    (hw : 0 < s.width_) :
    ∀ (idxs : List Nat) (acc : Nat),
      (∀ i ∈ idxs, i < s.count_matrix_.length ∧ i < s.hash_functions_.length) →
      countCheckedGo H s x idxs acc
        = some (countGo s.count_matrix_ s.width_ (fun i => rowColumn H s i x) idxs acc) := by
  intro idxs
  induction idxs with
  | nil => intro acc _; rfl
  | cons i rest ih =>
      intro acc h
      obtain ⟨hm, hh⟩ := h i (List.mem_cons_self i rest)
      have hrest := fun j hj => h j (List.mem_cons_of_mem i hj)
      show ((s.count_matrix_[i]?).bind fun row =>
          if row.length ≠ s.width_ then (if row.isEmpty then some 0 else row[0]?)
          else
            (s.hash_functions_[i]?).bind fun seed =>
              if s.width_ = 0 then none
              else
                if hashEval H s.width_ seed x ≥ s.width_ then
                  countCheckedGo H s x rest acc
                else
                  (row[hashEval H s.width_ seed x]?).bind fun v =>
                    countCheckedGo H s x rest (min acc v)) = _
      rw [List.getElem?_eq_getElem hm, Option.some_bind, ← getD_of_lt _ _ [] hm]
      show _ = some (if (s.count_matrix_.getD i []).length ≠ s.width_
            then (if (s.count_matrix_.getD i []).isEmpty then 0
                  else (s.count_matrix_.getD i []).headD 0)
            else if rowColumn H s i x ≥ s.width_ then
              countGo s.count_matrix_ s.width_ (fun i => rowColumn H s i x) rest acc
            else countGo s.count_matrix_ s.width_ (fun i => rowColumn H s i x) rest
              (min acc ((s.count_matrix_.getD i []).getD (rowColumn H s i x) 0)))
      by_cases hlen : (s.count_matrix_.getD i []).length = s.width_
      · have hlen2 : (s.count_matrix_[i]?.getD []).length = s.width_ := by
          simpa [List.getD_eq_getElem?_getD] using hlen
        rw [if_neg (by simp [hlen2]), if_neg (by simp [hlen2]),
          List.getElem?_eq_getElem hh, Option.some_bind, if_neg (by omega)]
        have hseed : hashEval H s.width_ s.hash_functions_[i] x = rowColumn H s i x := by
          rw [rowColumn, getD_of_lt _ _ 0 hh]
        rw [hseed]
        by_cases hge : rowColumn H s i x ≥ s.width_
        · rw [if_pos hge, if_pos hge]
          exact ih acc hrest
        · rw [if_neg hge, if_neg hge]
          have hcol : rowColumn H s i x < (s.count_matrix_.getD i []).length := by omega
          rw [List.getElem?_eq_getElem hcol, Option.some_bind,
            ← getD_of_lt _ _ 0 hcol]
          exact ih _ hrest
      · rw [if_pos hlen, if_pos hlen]
        by_cases hemp : (s.count_matrix_.getD i []).isEmpty
        · rw [if_pos hemp, if_pos hemp]
        · rw [if_neg hemp, if_neg hemp]
          have hne : s.count_matrix_.getD i [] ≠ [] := by
            simpa [List.isEmpty_iff] using hemp
          rw [getElem?_zero_eq_headD _ hne]

/-- The checked `Count` never aborts on a positive-width state: every
subscript the source takes is in range and no remainder by zero occurs, even
when the row count, hasher count or some row length is inconsistent. -/
theorem countChecked_eq_some_Count (H : HashModel α) (s : CountMinSketch α) (x : α)
    (hw : 0 < s.width_) :
    countChecked H s x = some (Count H s x) := by
  unfold countChecked Count
  by_cases hg : s.count_matrix_.isEmpty = true ∨ s.count_matrix_.length ≠ s.depth_ ∨
      s.hash_functions_.length ≠ s.depth_
  · rw [if_pos hg, if_pos hg]
  · rw [if_neg hg, if_neg hg]
    push_neg at hg
    obtain ⟨-, hlen, hhash⟩ := hg
    exact countCheckedGo_eq H s x hw (List.range s.depth_) UINT32_MAX
      (fun i hi => ⟨by rw [hlen]; exact List.mem_range.mp hi,
        by rw [hhash]; exact List.mem_range.mp hi⟩)

/-- Evidence that the checked interpreter flags the one genuinely unsafe
region of `Count`: on a state with `width_ = 0` but a nonzero depth, matching
row and hasher counts, and an empty (hence length-matching) row, the source
reaches the hasher call and performs a remainder by zero — undefined
behaviour — so the checked re-execution aborts instead of returning a value
(while the embedding's total `Count` would return 0 there). -/
theorem countChecked_zero_width_aborts :
    countChecked natModel ⟨0, 1, [0], [[]]⟩ 0 = none ∧
    Count natModel ⟨0, 1, [0], [[]]⟩ 0 = 0 :=
  ⟨by decide, by decide⟩

/-- C3, counterexample.  On the state with `width = 2`, `depth = 2`, hashers
`[0, 1]` and matrix `[[5], [3, 3]]`, the first row is malformed (length 1 ≠
2).  The spec's policy — "skip the malformed row, or return 0 if no row is
usable" — would give 3 (the usable second row's counter) or at worst 0, but
`Count` returns 5: the first counter of the malformed row itself. -/
theorem C3_counterexample :
    Count natModel ⟨2, 2, [0, 1], [[5], [3, 3]]⟩ 0 = 5 ∧
    countClaimed natModel ⟨2, 2, [0, 1], [[5], [3, 3]]⟩ 0 = 3 ∧
    ¬ (Count natModel ⟨2, 2, [0, 1], [[5], [3, 3]]⟩ 0
        = countClaimed natModel ⟨2, 2, [0, 1], [[5], [3, 3]]⟩ 0) :=
  ⟨by decide, by decide, by decide⟩

/-- **C3** (amended).  On every state with positive width — even an otherwise
internally inconsistent one (row count ≠ depth, hasher count ≠ depth, rows of
the wrong length) — `Count` performs no unsafe operation: `countChecked`,
which turns each subscript *and* the hasher's remainder into checked
operations, returns `some` of the same value.  The positivity hypothesis is
necessary: with `width_ = 0` the source itself evaluates `% width_`, a
remainder by zero and hence undefined behaviour, so no graceful-degradation
guarantee exists there (see `countChecked_zero_width_aborts`).  The
degradation policy is also not "skip the malformed row or return 0": `Count`
returns 0 on the global guard (empty matrix, row-count or hasher-count
mismatch), returns the *first counter of the first row whose length differs
from `width_`* (0 if that row is empty) without consulting the remaining
rows, and otherwise takes the sentinel minimum over the rows whose computed
column is in range — with positive width that is every row, so the source's
index-skipping branch never fires. -/
theorem C3_count_defensive (H : HashModel α) (s : CountMinSketch α) (x : α)
    (hw : 0 < s.width_) :
    countChecked H s x = some (Count H s x) ∧
    Count H s x = countAmended H s x :=
  ⟨countChecked_eq_some_Count H s x hw, Count_eq_countAmended H s x⟩

/-- C3 witness: the amended theorem applied at the inconsistent (but
positive-width) state `width = 2`, `depth = 2`, hashers `[0, 1]`, matrix
`[[5], [3, 3]]` and the key 0. -/
theorem C3_count_defensive_witness :
    0 < (⟨2, 2, [0, 1], [[5], [3, 3]]⟩ : CountMinSketch Nat).width_ ∧
    countChecked natModel ⟨2, 2, [0, 1], [[5], [3, 3]]⟩ 0
      = some (Count natModel ⟨2, 2, [0, 1], [[5], [3, 3]]⟩ 0) ∧
    Count natModel ⟨2, 2, [0, 1], [[5], [3, 3]]⟩ 0
      = countAmended natModel ⟨2, 2, [0, 1], [[5], [3, 3]]⟩ 0 :=
  ⟨by decide,
   (C3_count_defensive natModel ⟨2, 2, [0, 1], [[5], [3, 3]]⟩ 0 (by decide)).1,
   (C3_count_defensive natModel ⟨2, 2, [0, 1], [[5], [3, 3]]⟩ 0 (by decide)).2⟩

/-- C4 witness: the move out of a fresh 3×2 sketch. -/
theorem C4_move_witness :
    (moveConstruct (fresh Nat 3 2)).1 = fresh Nat 3 2 ∧
    Count natModel (moveConstruct (fresh Nat 3 2)).2 9 = 0 ∧
    Merge (moveConstruct (fresh Nat 3 2)).2 (fresh Nat 3 2)
      = .error .incompatibleDimensions := by
  have h := C4_move natModel (fresh Nat 3 2) (by decide)
  exact ⟨h.2.2.2.2.1, h.2.2.2.2.2.2.2.2.2.2.2.1 9,
    h.2.2.2.2.2.2.2.2.2.2.2.2.1 (fresh Nat 3 2) (by decide)⟩

/-! ## Claim C6 -/

/-- **C6**: on every state, `TopK k candidates` has length exactly
`min k candidates.length`, is sorted by descending estimate, pairs every
returned candidate with exactly `Count` of that candidate, and is empty for
`k = 0`.  (Which candidates survive truncation among equal estimates is the
`std::sort` tie order, which the source leaves unspecified.) -/
theorem C6_topk (H : HashModel α) (s : CountMinSketch α) (k : Nat) (cands : List α) :
    (TopK H s k cands).length = min k cands.length ∧
    List.Sorted estDesc (TopK H s k cands) ∧
    (∀ p ∈ TopK H s k cands, p.2 = Count H s p.1) ∧
    (k = 0 → TopK H s k cands = []) := by
  refine ⟨?_, ?_, ?_, fun hk => by rw [TopK, if_pos hk]⟩
  · unfold TopK
    by_cases hk : k = 0
    · simp [hk]
    · rw [if_neg hk]
      rw [List.length_take, List.length_insertionSort, List.length_map]
      omega
  · unfold TopK
    by_cases hk : k = 0
    · simp [hk]
    · rw [if_neg hk]
      exact List.Pairwise.sublist (List.take_sublist _ _)
        (List.sorted_insertionSort estDesc _)
  · intro p hp
    rw [TopK] at hp
    by_cases hk : k = 0
    · rw [if_pos hk] at hp; cases hp
    · rw [if_neg hk] at hp
      have hp2 : p ∈ List.insertionSort estDesc
          (cands.map fun c => (c, Count H s c)) := List.mem_of_mem_take hp
      rw [List.mem_insertionSort] at hp2
      obtain ⟨c, -, hc⟩ := List.mem_map.mp hp2
      rw [← hc]

/-- C6 witness: `TopK` of a sketch holding one insert of the key 3. -/
theorem C6_topk_witness :
    (TopK natModel (Insert natModel (fresh Nat 4 2) 3) 1 [3, 9]).length = min 1 2 ∧
    TopK natModel (fresh Nat 4 2) 0 [3, 9] = [] :=
  ⟨(C6_topk natModel (Insert natModel (fresh Nat 4 2) 3) 1 [3, 9]).1,
   (C6_topk natModel (fresh Nat 4 2) 0 [3, 9]).2.2.2 rfl⟩

/-! ## Claim C10 -/

/-- **C10**: cross-instance hash determinism.  A stored hasher's output
depends only on its row index (the captured seed), the fixed `SEED_BASE`
15445, the owner's width and the key — never on the instance's identity: two
well-formed sketches with equal dimensions (whatever their contents or insert
histories) compute identical columns on every row for every key, and `Count`
over the same insert history from two separate constructions is identical,
which is what makes `Merge` of independently built sketches meaningful. -/
theorem C10_hash_determinism (H : HashModel α) (s t : CountMinSketch α)
    (hs : WellFormed s) (ht : WellFormed t)
    (hw : s.width_ = t.width_) (hd : s.depth_ = t.depth_) :
    (∀ i x, i < s.depth_ → rowColumn H s i x = rowColumn H t i x) ∧
    (∀ i x, i < s.depth_ →
      rowColumn H s i x
        = H.combineHashes (H.keyHash x) (H.combineHashes i SEED_BASE) % s.width_) ∧
    (∀ (l : List α) (x : α),
      Count H (List.foldl (Insert H) (fresh α s.width_ s.depth_) l) x
        = Count H (List.foldl (Insert H) (fresh α t.width_ t.depth_) l) x) := by
  have hseeds : ∀ i, i < s.depth_ → s.hash_functions_.getD i 0 = i := by
    intro i hi
    rw [hs.2.2.2.2.1]
    exact getD_range_of_lt s.depth_ i hi
  have hseedt : ∀ i, i < t.depth_ → t.hash_functions_.getD i 0 = i := by
    intro i hi
    rw [ht.2.2.2.2.1]
    exact getD_range_of_lt t.depth_ i hi
  refine ⟨?_, ?_, ?_⟩
  · intro i x hi
    unfold rowColumn
    rw [hseeds i hi, hseedt i (hd ▸ hi), hw]
  · intro i x hi
    unfold rowColumn hashEval
    rw [hseeds i hi]
  · intro l x
    rw [hw, hd]

/-- C10 witness: two sketches of equal dimensions with different contents
(one fresh, one after an insert) hash the key 9 to the same column of row 1. -/
theorem C10_hash_determinism_witness :
    rowColumn natModel (Insert natModel (fresh Nat 4 3) 7) 1 9
      = rowColumn natModel (fresh Nat 4 3) 1 9 :=
  (C10_hash_determinism natModel (Insert natModel (fresh Nat 4 3) 7) (fresh Nat 4 3)
    (by decide) (by decide) rfl rfl).1 1 9 (by decide)

end bustub
